import Mathlib

/-!
A verification development for the ToMoBAR iterative-reconstruction core.

The Python source is shallowly embedded:

* `tomobar/astra_wrappers.py` : the ordered-subsets (OS) angle partitioner
  `_setOS_indices` and the trimming of its padding slot.
* `tomobar/supp/dicts.py` : configuration resolution (`dicts_check`) for the
  data and algorithm dictionaries.
* `tomobar/methodsIR.py` : the FISTA and ADMM solver loops, the Group-Huber
  ring model, the outlier reweighting and the momentum recurrence.

Images, projection residuals and ring vectors are modelled as functions
`Nat -> A` over a linear ordered field `A` (entrywise numpy arrays with float
arithmetic read as exact field arithmetic).  Operations delegated to external
collaborators (the ASTRA projector, scipy gmres, the CCPi regulariser, numpy
shape manipulation) enter the models as function-valued fields, exactly at the
call sites where the source invokes them.
-/

namespace Tomobar

/-! ## Ordered-subsets partitioner, from `astra_wrappers.py::_setOS_indices` -/

/-- `NumbProjBins = int(np.ceil(angles_tot / ordsub_number))`
(`astra_wrappers.py` lines 176-178), as exact natural ceiling division. -/
def numbProjBins (anglesTot OS : ℕ) : ℕ := (anglesTot + OS - 1) / OS

/-- The inner loop of `_setOS_indices` (`astra_wrappers.py` lines 183-188) for a
fixed subset row `s`: starting from `ind_sel = 0`, slot `p` receives
`ind_sel + s` and advances `ind_sel` by `OS` whenever `ind_sel + s < anglesTot`;
otherwise the slot keeps the zero the array was initialised with.  Returns the
row after `B` slots together with the final `ind_sel`. -/
def osRowAux (anglesTot OS s : ℕ) : ℕ → List ℕ × ℕ
  | 0 => ([], 0)
  | B + 1 =>
    let acc := osRowAux anglesTot OS s B
    let indexS := acc.2 + s
    if indexS < anglesTot then (acc.1 ++ [indexS], acc.2 + OS)
    else (acc.1 ++ [0], acc.2)

/-- Row `s` of `newInd_Vec` (`astra_wrappers.py` lines 179-188). -/
def newIndRow (anglesTot OS s : ℕ) : List ℕ :=
  (osRowAux anglesTot OS s (numbProjBins anglesTot OS)).1

/-- The padding trim applied at every use site of `newInd_Vec`
(`astra_wrappers.py` lines 241-243 and 270-272, `methodsIR.py` lines 354-356):
if the entry at position `NumbProjBins - 1` is `0` the last slot is dropped. -/
def trimmedIndVec (anglesTot OS s : ℕ) : List ℕ :=
  let indVec := newIndRow anglesTot OS s
  if indVec.getD (numbProjBins anglesTot OS - 1) 0 = 0 then indVec.dropLast
  else indVec

/-- The concatenation of all trimmed subset index lists, subset by subset. -/
def osIndexUnion (anglesTot OS : ℕ) : List ℕ :=
  ((List.range OS).map (trimmedIndVec anglesTot OS)).flatten

/-- The number of slots of row `s` that `_setOS_indices` actually fills, i.e.
the number of `p` with `s + p * OS < anglesTot` (a derived quantity used to
state the partition proofs; equals the exact ceiling of
`(anglesTot - s) / OS`). -/
def osFillCount (anglesTot OS s : ℕ) : ℕ := (anglesTot - s + OS - 1) / OS

/-! ## Soft-thresholding of the ring vector, from `methodsIR.py` line 473 -/

/-- `np.sign`: `-1`, `0` or `1` according to the argument. -/
def npSign {α : Type} [LinearOrderedField α] (x : α) : α :=
  if 0 < x then 1 else if x < 0 then -1 else 0

/-- One entry of
`r = np.maximum((np.abs(r) - ringGH_lambda), 0.0) * np.sign(r)`
(`methodsIR.py` line 473). -/
def softThresh {α : Type} [LinearOrderedField α] (lam x : α) : α :=
  max (|x| - lam) 0 * npSign x

/-! ## Python dictionary values

The configuration dictionaries of `dicts_check` are dynamically typed; the
values that matter to the claims are booleans, numbers, strings and `None`. -/

inductive AlgValue where
  | pyNone : AlgValue
  | pyBool : Bool → AlgValue
  | pyInt : ℕ → AlgValue
  | pyFloat : ℚ → AlgValue
  | pyStr : String → AlgValue
  deriving DecidableEq

/-! ## Data-dictionary resolution, from `supp/dicts.py::dicts_check` -/

inductive Fidelity where
  | LS : Fidelity
  | PWLS : Fidelity
  | SWLS : Fidelity
  | KL : Fidelity
  deriving DecidableEq

/-- The caller-supplied `_data_` dictionary (`dicts_check` keyword arguments).
For the two projection arrays the code only tests `.get(key) is None`, which
merges a missing key with an explicit `None`, so a single `Option` suffices;
for the threshold keys the code tests `key not in _data_`, so the outer
`Option` records key presence and the inner one the Python value. -/
structure DataIn (α Arr : Type) where
  projection_norm_data : Option Arr
  projection_raw_data : Option Arr
  OS_number : Option ℕ
  beta_SWLS : Option α
  huber_threshold : Option (Option α)
  studentst_threshold : Option (Option α)
  ringGH_lambda : Option (Option α)
  ringGH_accelerate : Option α

/-- The `_data_` dictionary after a FISTA run of `dicts_check`. -/
structure DataOut (α Arr : Type) where
  projection_norm_data : Arr
  projection_raw_data : Option Arr
  OS_number : ℕ
  beta_SWLS : Option α
  huber_threshold : Option α
  studentst_threshold : Option α
  ringGH_lambda : Option α
  ringGH_accelerate : α

/-- The `_data_` stage of `dicts_check` (`supp/dicts.py` lines 81-128) for a
FISTA invocation: raise when `projection_norm_data` is absent; raise when the
fidelity is PWLS or SWLS and `projection_raw_data` is absent; otherwise default
`OS_number` to 1, default `beta_SWLS` to `0.1` for SWLS (the broadcast to a
`np.ones(DetectorsDimH)` vector is an external numpy operation, the scalar
here stands for that uniform vector), and default the absent threshold and
ring keys (`huber_threshold`, `studentst_threshold`, `ringGH_lambda` to
`None`, `ringGH_accelerate` to `50`).  The in-place axis swap of the arrays is
an external numpy operation that does not affect presence.  No check relates
`huber_threshold` and `studentst_threshold` to each other. -/
def dicts_check_data {α Arr : Type} [LinearOrderedField α] (fid : Fidelity)
    (d : DataIn α Arr) : Except String (DataOut α Arr) :=
  match d.projection_norm_data with
  | none => Except.error ( "No input projection_norm_data has been provided")
  | some norm =>
    if d.projection_raw_data.isNone ∧ (fid = Fidelity.PWLS ∨ fid = Fidelity.SWLS) then
      Except.error ( "No input projection_raw_data provided for PWLS or SWLS data fidelity")
    else
      Except.ok
        { projection_norm_data := norm
          projection_raw_data := d.projection_raw_data
          OS_number := d.OS_number.getD 1
          beta_SWLS := if fid = Fidelity.SWLS then some (d.beta_SWLS.getD (1 / 10))
                       else d.beta_SWLS
          huber_threshold := d.huber_threshold.getD none
          studentst_threshold := d.studentst_threshold.getD none
          ringGH_lambda := d.ringGH_lambda.getD none
          ringGH_accelerate := d.ringGH_accelerate.getD 50 }

/-! ## Outlier reweighting of the residual, from `methodsIR.py` lines 433-452 -/

/-- The entrywise multiplier applied to the residual before backprojection:
when a Huber threshold is set, `multHuber` is `1` except where
`|res| > huber_threshold`, where it is `huber_threshold / |res|`; otherwise
(`elif`) when a Student-t threshold is set the multiplier is
`2 / (studentst_threshold^2 + res^2)`; with neither threshold the residual is
backprojected unweighted (multiplier `1`). -/
def multWeight {α : Type} [LinearOrderedField α] (huber studentst : Option α) (r : α) : α :=
  match huber with
  | some tau => if tau < |r| then tau / |r| else 1
  | none =>
    match studentst with
    | some tau => 2 / (tau ^ 2 + r ^ 2)
    | none => 1

/-- The Huber effective weight transcribed from the words of the
specification (section 4.4): the weight is clipped to `threshold/|residual|`
beyond the threshold. -/
def huberWeightSpec {α : Type} [LinearOrderedField α] (tau r : α) : α :=
  if tau < |r| then tau / |r| else 1

/-- The Student-t weight transcribed from the words of the specification
(section 4.4): `2/(threshold^2 + residual^2)`. -/
def studentWeightSpec {α : Type} [LinearOrderedField α] (tau r : α) : α :=
  2 / (tau ^ 2 + r ^ 2)

/-! ## Algorithm-dictionary resolution, from `supp/dicts.py` lines 129-178

Modelled as an association list so that the distinction between a missing key
(Python `KeyError` on subscript) and a key holding `None` is preserved; an
assignment prepends, and `lookup` finds the most recent binding first. -/

/-- Python subscript `d[k]`: the value, or a raised `KeyError`. -/
def pyGetItem (d : List (String × AlgValue)) (k : String) : Except String AlgValue :=
  match d.lookup k with
  | some v => Except.ok v
  | none => Except.error ( "KeyError: " ++ k)

/-- The `if k not in d: d[k] = v` idiom. -/
def setIfAbsent (d : List (String × AlgValue)) (k : String) (v : AlgValue) :
    List (String × AlgValue) :=
  match d.lookup k with
  | some _ => d
  | none => (k, v) :: d

/-- The `if d.get(k) is None: d[k] = v` idiom (fires on a missing key and on
an explicit `None`). -/
def setIfGetNone (d : List (String × AlgValue)) (k : String) (v : AlgValue) :
    List (String × AlgValue) :=
  match d.lookup k with
  | some AlgValue.pyNone => (k, v) :: d
  | some _ => d
  | none => (k, v) :: d

/-- The `_algorithm_` stage of `dicts_check` for a FISTA run
(`supp/dicts.py` lines 145-178): default `iterations` (20 ordered-subsets /
400 classical), default `lipschitz_const` to the externally computed
`self.powermethod(_data_)` value `Lauto`, then default `initialise`,
`nonnegativity`, `recon_mask_radius`, `tolerance` and `verbose`.  The
side effect on `self.nonneg_regul` concerns only the external regulariser and
is not modelled.  Note that no branch ever touches a key named
`mask_diameter`. -/
def dicts_check_algorithm_FISTA (OSnum : ℕ) (Lauto : AlgValue)
    (alg : List (String × AlgValue)) : List (String × AlgValue) :=
  let a1 := setIfGetNone alg "iterations" (if 1 < OSnum then AlgValue.pyInt 20 else AlgValue.pyInt 400)
  let a2 := setIfGetNone a1 "lipschitz_const" Lauto
  let a3 := setIfAbsent a2 "initialise" AlgValue.pyNone
  let a4 := setIfAbsent a3 "nonnegativity" (AlgValue.pyBool false)
  let a5 := setIfAbsent a4 "recon_mask_radius" (AlgValue.pyFloat 1)
  let a6 := setIfAbsent a5 "tolerance" (AlgValue.pyFloat 0)
  let a7 := setIfAbsent a6 "verbose" (AlgValue.pyBool false)
  a7

/-- The dictionary reads of one FISTA subset update after the gradient step
(`methodsIR.py` lines 461-465): the nonnegativity clamp fires only when the
stored value equals the string `ENABLE`; then `_algorithm_['mask_diameter']`
is subscripted — a `KeyError` when the key is missing — and the external
`circ_mask` (`maskFn`) is applied when the value is not `None`. -/
def fistaDictUpdateTail (alg : List (String × AlgValue)) (maskFn : (ℕ → ℚ) → (ℕ → ℚ))
    (X1 : ℕ → ℚ) : Except String (ℕ → ℚ) := do
  let nn ← pyGetItem alg "nonnegativity"
  let X2 := if nn = AlgValue.pyStr "ENABLE" then (fun i => if X1 i < 0 then 0 else X1 i) else X1
  let md ← pyGetItem alg "mask_diameter"
  let X3 := if md ≠ AlgValue.pyNone then maskFn X2 else X2
  pure X3

/-! ## The FISTA solver loop, from `methodsIR.py` lines 275-487

Images, residual stacks and ring vectors are entrywise arrays modelled as
functions `ℕ → α` with pointwise arithmetic.  The external collaborators —
the ASTRA forward/backward projector (together with the slicing of the
projection data by the subset index vector), the numpy broadcast of the ring
vector onto the residual shape, the summation of the residual over its angle
axis, `np.sqrt`, `circ_mask` and the regulariser proximal operator — are
fields of the model, placed exactly at the call sites where the source
invokes them. -/

structure FISTAModel (α : Type) [LinearOrderedField α] where
  /-- `self.geom == '2D'` -/
  is2D : Bool
  /-- `_data_['OS_number']` -/
  OSnum : ℕ
  /-- `_data_['ringGH_lambda']` -/
  lam : Option α
  /-- `_data_['ringGH_accelerate']` -/
  accel : α
  /-- `_data_['huber_threshold']` -/
  huber : Option α
  /-- `_data_['studentst_threshold']` -/
  studentst : Option α
  /-- `L_const_inv = 1.0 / _algorithm_['lipschitz_const']` -/
  Linv : α
  /-- `_algorithm_['nonnegativity']` (a dynamically typed Python value) -/
  nonneg : AlgValue
  /-- the caller-supplied `_algorithm_['mask_diameter']` value -/
  mask_diameter : Option α
  /-- `_regularisation_['method']` -/
  regulMethod : Option String
  /-- `np.sqrt` on nonnegative floats (external) -/
  sqrtFn : α → α
  /-- the fidelity residual of a subset at the extrapolated image:
  `forwprojOS(X_t, sub) - data[indVec]` with the LS/PWLS/SWLS/KL weighting of
  lines 360-432 already included (projector and data slicing are external) -/
  fidRes : (ℕ → α) → ℕ → (ℕ → α)
  /-- `backprojOS(·, sub)` resp. `backproj(·)` (external projector) -/
  backproj : (ℕ → α) → ℕ → (ℕ → α)
  /-- the numpy broadcast of the ring vector onto the residual shape
  (`res[:,0:None] + r_x[:,0]` per row in 2D, per angle slice in 3D) -/
  broadcastRing : (ℕ → α) → (ℕ → α)
  /-- `res.sum(axis = 0)` in 2D resp. `res.sum(axis = 1)` in 3D: the sum of
  the residual stack over its angle axis, landing in the ring-vector shape -/
  collapseRes : (ℕ → α) → (ℕ → α)
  /-- `circ_mask(·, _algorithm_['mask_diameter'])` (geometry external) -/
  maskFn : (ℕ → α) → (ℕ → α)
  /-- the external regulariser proximal call `prox_regul` -/
  prox : (ℕ → α) → (ℕ → α)

/-- The FISTA solver state: estimate `X`, extrapolated image `X_t`, ring
vector `r` with its extrapolation `r_x`, momentum scalar `t`, and the
`t_old` local of the most recent subset step (read by the ring extrapolation
of line 474). -/
structure FISTAState (α : Type) where
  X : ℕ → α
  X_t : ℕ → α
  r : ℕ → α
  r_x : ℕ → α
  t : α
  t_old : α

/-- The initial FISTA state (`methodsIR.py` lines 296-319): the image is the
caller-supplied initialiser or zeros, `r` and `r_x` are zeros, `t = 1.0`,
`X_t = X.copy()`. -/
def fistaInit {α : Type} [LinearOrderedField α] (X0 : ℕ → α) : FISTAState α :=
  { X := X0, X_t := X0, r := 0, r_x := 0, t := 1, t_old := 1 }

/-- Whether the Group-Huber ring terms are active this iteration:
`(_data_['ringGH_lambda'] is not None) and (iter_no > 0)`. -/
def ringActive {α : Type} [LinearOrderedField α] (M : FISTAModel α) (iter_no : ℕ) : Prop :=
  M.lam.isSome ∧ 0 < iter_no

instance {α : Type} [LinearOrderedField α] (M : FISTAModel α) (iter_no : ℕ) :
    Decidable (ringActive M iter_no) := by
  unfold ringActive
  infer_instance

/-- The residual a subset step feeds to the reweighting: the fidelity residual
of the subset, plus the ring correction `ringGH_accelerate * r_x` broadcast
over the angles when the ring model is active (`methodsIR.py` lines 360-432;
ring additions at lines 377-378, 398-400 for the OS paths and 412-419 for the
classical path). -/
def subsetRes {α : Type} [LinearOrderedField α] (M : FISTAModel α) (iter_no : ℕ)
    (Xt rx : ℕ → α) (sub : ℕ) : ℕ → α :=
  let res0 := M.fidRes Xt sub
  if ringActive M iter_no then res0 + M.accel • M.broadcastRing rx else res0

/-- One pass of the `for sub_ind in range(OS_number)` body
(`methodsIR.py` lines 349-471).  In the classical (`OS_number = 1`) branch the
active ring model also rewrites `r` from the full residual
(lines 412-421); afterwards the reweighted gradient is backprojected, the
image is updated, clamped when `nonnegativity == 'ENABLE'`, masked when a
`mask_diameter` value was supplied, handed to the regulariser when a method is
configured, and the momentum recurrence with the extrapolation closes the
step (lines 461-471). -/
def subsetStep {α : Type} [LinearOrderedField α] (M : FISTAModel α) (iter_no sub : ℕ)
    (s : FISTAState α) : FISTAState α :=
  let X_old := s.X
  let t_old := s.t
  let res := subsetRes M iter_no s.X_t s.r_x sub
  let r1 := if M.OSnum > 1 then s.r
            else if ringActive M iter_no then s.r_x - M.Linv • M.collapseRes res else s.r
  let wres := fun i => multWeight M.huber M.studentst (res i) * res i
  let grad_fidelity := M.backproj wres sub
  let X1 := s.X_t - M.Linv • grad_fidelity
  let X2 := if M.nonneg = AlgValue.pyStr "ENABLE" then (fun i => if X1 i < 0 then 0 else X1 i)
            else X1
  let X3 := match M.mask_diameter with
            | some _ => M.maskFn X2
            | none => X2
  let X4 := match M.regulMethod with
            | some _ => M.prox X3
            | none => X3
  let t1 := (1 + M.sqrtFn (1 + 4 * s.t ^ 2)) * (1 / 2)
  let X_t1 := X4 + ((t_old - 1) / t1) • (X4 - X_old)
  { X := X4, X_t := X_t1, r := r1, r_x := s.r_x, t := t1, t_old := t_old }

/-- The Group-Huber pre-calculation over the full projection dataset
(`methodsIR.py` lines 323-346), run before the subset loop when
`OS_number != 1`, the ring model is set and `iter_no > 0`.  The accumulator
`vec` starts at zero; in the 2D geometry each subset adds
`(1/OS_number) * res.sum(axis=0)` to it, while in the 3D geometry the line
`vec = res.sum(axis = 1)` overwrites it, so only the final subset survives.
Returns the updated ring vector `r = r_x - L_const_inv * vec`. -/
def ghPrecalc {α : Type} [LinearOrderedField α] (M : FISTAModel α) (s : FISTAState α) :
    ℕ → α :=
  let vec := (List.range M.OSnum).foldl
    (fun vec sub =>
      let res := M.fidRes s.X_t sub + M.accel • M.broadcastRing s.r_x
      if M.is2D then vec + ((M.OSnum : α))⁻¹ • M.collapseRes res
      else M.collapseRes res)
    0
  s.r_x - M.Linv • vec

/-- The same pre-calculation as the specification words it (sections 4.5 and
4.6): the summed-residual vector accumulates the contribution of every
subset — the full projection dataset — in the 3D geometry exactly as in the
2D one (without the 2D path's `1/OS_number` scaling, which the 3D code also
lacks). -/
def ghPrecalcSpec3D {α : Type} [LinearOrderedField α] (M : FISTAModel α) (s : FISTAState α) :
    ℕ → α :=
  let vec := (List.range M.OSnum).foldl
    (fun vec sub =>
      let res := M.fidRes s.X_t sub + M.accel • M.broadcastRing s.r_x
      vec + M.collapseRes res)
    0
  s.r_x - M.Linv • vec

/-- One outer FISTA iteration (`methodsIR.py` lines 321-486): remember
`r_old`, run the Group-Huber pre-calculation when `OS_number != 1` and the
ring model is active, fold the subset steps in partition order, then
soft-threshold the ring vector and extrapolate it with the momentum of the
final subset step (lines 472-474).  The verbose printing and the tolerance
check (lines 475-486) only decide early termination and do not change the
state. -/
def iterStep {α : Type} [LinearOrderedField α] (M : FISTAModel α) (iter_no : ℕ)
    (s : FISTAState α) : FISTAState α :=
  let r_old := s.r
  let s1 := if M.OSnum ≠ 1 ∧ ringActive M iter_no then { s with r := ghPrecalc M s } else s
  let s2 := (List.range M.OSnum).foldl (fun st sub => subsetStep M iter_no sub st) s1
  if ringActive M iter_no then
    let r2 := fun i => softThresh (M.lam.getD 0) (s2.r i)
    { s2 with r := r2, r_x := r2 + ((s2.t_old - 1) / s2.t) • (r2 - r_old) }
  else s2

/-- The FISTA state after `n` outer iterations, starting from `fistaInit X0`. -/
def fistaStates {α : Type} [LinearOrderedField α] (M : FISTAModel α) (X0 : ℕ → α) :
    ℕ → FISTAState α
  | 0 => fistaInit X0
  | n + 1 => iterStep M n (fistaStates M X0 n)

/-! ## The ADMM solver loop, from `methodsIR.py` lines 491-573

The flattened solution vector lives in `ℕ → α`; the scipy `gmres` solve of
the quadratic sub-problem (with its fixed implicit operator) and the
regulariser proximal call are external and enter as fields.  The
`z = z.ravel()` reshape is the identity on the flattened model. -/

structure ADMMModel (α : Type) [LinearOrderedField α] where
  /-- `_algorithm_['ADMM_rho_const']` -/
  rho : α
  /-- `_algorithm_['ADMM_relax_par']` -/
  relax : α
  /-- `_algorithm_['nonnegativity']` -/
  nonneg : AlgValue
  /-- `_regularisation_['method']` -/
  regulMethod : Option String
  /-- `np.float32(scipy.sparse.linalg.gmres(A_to_solver, ·, tol=1e-05, maxiter=15)[0])`
  with the fixed operator `ADMM_Ax` (external) -/
  solveQP : (ℕ → α) → (ℕ → α)
  /-- the external regulariser proximal call `prox_regul` (including the
  reshape of its argument to the geometry shape and back) -/
  prox : (ℕ → α) → (ℕ → α)
  /-- `b_to_solver_const = A_optomo.transposeOpTomo(projection_norm_data.ravel())`
  (external backprojection of the data) -/
  b_const : ℕ → α

/-- The ADMM iteration state. -/
structure ADMMState (α : Type) where
  X : ℕ → α
  z : ℕ → α
  u : ℕ → α

/-- `X`, `z`, `u` start as zeros (or the caller initialiser for `X`),
`methodsIR.py` lines 521-531. -/
def admmInit {α : Type} [LinearOrderedField α] (X0 : ℕ → α) : ADMMState α :=
  { X := X0, z := 0, u := 0 }

/-- The right-hand side of the quadratic sub-problem,
`b_to_solver = b_to_solver_const + ADMM_rho_const*(z-u)` (line 539). -/
def admmRHS {α : Type} [LinearOrderedField α] (M : ADMMModel α) (s : ADMMState α) : ℕ → α :=
  M.b_const + M.rho • (s.z - s.u)

/-- The relaxed extrapolation `x_hat = relax*X + (1-relax)*zold` (line 546),
computed from the clamped gmres solution and the previous `z`. -/
def admmXhat {α : Type} [LinearOrderedField α] (M : ADMMModel α) (s : ADMMState α) : ℕ → α :=
  let X1 := M.solveQP (admmRHS M s)
  let X2 := if M.nonneg = AlgValue.pyStr "ENABLE" then (fun i => if X1 i < 0 then 0 else X1 i)
            else X1
  M.relax • X2 + (1 - M.relax) • s.z

/-- One outer ADMM iteration (`methodsIR.py` lines 535-569): gmres solve of
`(AᵗA + ρI) x = b_const + ρ(z−u)`, optional nonnegativity clamp (again only on
the string `ENABLE`), relaxed extrapolation, `z` reassigned only when a
regularisation method is configured (lines 552-554; `z = z.ravel()` is a
shape-only operation), and the dual update `u = u + (x_hat - z)`. -/
def admmStep {α : Type} [LinearOrderedField α] (M : ADMMModel α) (s : ADMMState α) :
    ADMMState α :=
  let X1 := M.solveQP (admmRHS M s)
  let X2 := if M.nonneg = AlgValue.pyStr "ENABLE" then (fun i => if X1 i < 0 then 0 else X1 i)
            else X1
  let x_hat := M.relax • X2 + (1 - M.relax) • s.z
  let x_prox_reg := x_hat + s.u
  let z1 := match M.regulMethod with
            | some _ => M.prox x_prox_reg
            | none => s.z
  let u1 := s.u + (x_hat - z1)
  { X := X2, z := z1, u := u1 }

/-- The ADMM state after `n` iterations. -/
def admmStates {α : Type} [LinearOrderedField α] (M : ADMMModel α) (X0 : ℕ → α) :
    ℕ → ADMMState α
  | 0 => admmInit X0
  | n + 1 => admmStep M (admmStates M X0 n)

/-! ## Concrete model instances used for evaluations and witnesses -/

/-- A concrete two-subset 3D instance of the FISTA model over `ℚ`, used to
evaluate the Group-Huber pre-calculation: each subset holds one angle (so the
sum over the angle axis is the identity), the summed residual of subset `sub`
is the constant `sub + 1`, the ring acceleration is `0` and
`L_const_inv = 1`. -/
def ghExample : FISTAModel ℚ :=
  { is2D := false, OSnum := 2, lam := some 1, accel := 0, huber := none, studentst := none,
    Linv := 1, nonneg := AlgValue.pyBool false, mask_diameter := none, regulMethod := none,
    sqrtFn := fun q => q, fidRes := fun _Xt sub => fun _ => if sub = 0 then 1 else 2,
    backproj := fun w _ => w, broadcastRing := fun rv => rv, collapseRes := fun res => res,
    maskFn := fun X => X, prox := fun X => X }

/-- A concrete classical (`OS_number = 1`) FISTA instance over `ℚ`: the
fidelity residual is the constant `1`, backprojection is the identity and
`L_const_inv = 1`, so the first step descends from the zero image to the
constant `-1`.  The `nonnegativity` option holds the Python boolean `True` —
the type `dicts_check` documents and defaults. -/
def nonnegTrueExample : FISTAModel ℚ :=
  { is2D := true, OSnum := 1, lam := none, accel := 50, huber := none, studentst := none,
    Linv := 1, nonneg := AlgValue.pyBool true, mask_diameter := none, regulMethod := none,
    sqrtFn := fun q => q, fidRes := fun _Xt _sub => fun _ => 1,
    backproj := fun w _ => w, broadcastRing := fun rv => rv, collapseRes := fun res => res,
    maskFn := fun X => X, prox := fun X => X }

/-- The same instance with `nonnegativity` holding the string `ENABLE`, the
only value the comparison in the solver accepts. -/
def nonnegEnableExample : FISTAModel ℚ :=
  { nonnegTrueExample with nonneg := AlgValue.pyStr "ENABLE" }

/-- A concrete ADMM instance over `ℚ` with trivial external operators and no
regularisation method. -/
def admmExample : ADMMModel ℚ :=
  { rho := 1000, relax := 1, nonneg := AlgValue.pyBool false, regulMethod := none,
    solveQP := fun b => b, prox := fun z => z, b_const := fun _ => 1 }

/-! ## Partitioner lemmas (towards claim C1) -/

theorem lt_ceilDiv_iff {OS : ℕ} (hOS : 0 < OS) (p t : ℕ) :
    p < (t + OS - 1) / OS ↔ p * OS < t := by
  rcases Nat.eq_zero_or_pos t with h0 | hpos
  · subst h0
    have h1 : (OS - 1) / OS = 0 := Nat.div_eq_of_lt (by omega)
    simp [h1]
  · have ht : t + OS - 1 = (t - 1) + OS := by omega
    rw [ht, Nat.lt_iff_add_one_le, Nat.le_div_iff_mul_le hOS, Nat.succ_mul]
    generalize p * OS = k
    omega

theorem fill_lt_iff {tot OS s : ℕ} (hOS : 0 < OS) (p : ℕ) :
    s + p * OS < tot ↔ p < osFillCount tot OS s := by
  rw [osFillCount, lt_ceilDiv_iff hOS]
  generalize p * OS = k
  omega

theorem osRowAux_spec {tot OS s : ℕ} (hOS : 0 < OS) (B : ℕ) :
    osRowAux tot OS s B =
      (((List.range (min B (osFillCount tot OS s))).map (fun p => s + p * OS)) ++
        List.replicate (B - min B (osFillCount tot OS s)) 0,
       min B (osFillCount tot OS s) * OS) := by
  induction B with
  | zero => simp [osRowAux]
  | succ B ih =>
    set m := osFillCount tot OS s with hm
    rw [osRowAux, ih]
    by_cases hB : B < m
    · have hmin : min B m = B := min_eq_left (by omega)
      have hminS : min (B + 1) m = B + 1 := min_eq_left (by omega)
      have hfill : s + B * OS < tot := (fill_lt_iff hOS B).mpr hB
      rw [hmin, hminS]
      simp only [Nat.sub_self, List.replicate_zero, List.append_nil]
      rw [if_pos (by linarith)]
      refine Prod.ext ?_ ?_
      · simp only [List.range_succ, List.map_append, List.map_cons, List.map_nil]
        simp [Nat.add_comm]
      · simp [Nat.succ_mul]
    · have hmin : min B m = m := min_eq_right (by omega)
      have hminS : min (B + 1) m = m := min_eq_right (by omega)
      have hnofill : ¬ (s + m * OS < tot) := by
        rw [fill_lt_iff hOS]
        omega
      rw [hmin, hminS]
      rw [if_neg (by intro hcon; exact hnofill (by linarith))]
      refine Prod.ext ?_ ?_
      · have hrep : B + 1 - m = (B - m) + 1 := by omega
        rw [hrep, List.replicate_succ', ← List.append_assoc]
      · rfl

theorem osFillCount_le_numbProjBins {tot OS s : ℕ} :
    osFillCount tot OS s ≤ numbProjBins tot OS :=
  Nat.div_le_div_right (by omega)

theorem numbProjBins_le_osFillCount_succ {tot OS s : ℕ} (hOS : 0 < OS) (hs : s < OS) :
    numbProjBins tot OS ≤ osFillCount tot OS s + 1 := by
  have h1 : osFillCount tot OS s + 1 = (tot - s + OS - 1 + OS) / OS := by
    rw [osFillCount, Nat.add_div_right _ hOS]
  rw [numbProjBins, h1]
  exact Nat.div_le_div_right (by omega)

theorem two_le_numbProjBins {tot OS : ℕ} (hOS : 0 < OS) (h : OS < tot) :
    2 ≤ numbProjBins tot OS := by
  rw [numbProjBins, Nat.le_div_iff_mul_le hOS]
  omega

theorem one_le_osFillCount {tot OS s : ℕ} (hOS : 0 < OS) (h : s < tot) :
    1 ≤ osFillCount tot OS s := by
  rw [osFillCount, Nat.le_div_iff_mul_le hOS]
  omega

theorem trimmedIndVec_eq {tot OS s : ℕ} (hOS : 0 < OS) (hs : s < OS) (htot : OS < tot) :
    trimmedIndVec tot OS s = (List.range (osFillCount tot OS s)).map (fun p => s + p * OS) := by
  have hB2 := two_le_numbProjBins hOS htot
  have hmle : osFillCount tot OS s ≤ numbProjBins tot OS := osFillCount_le_numbProjBins
  have hBle : numbProjBins tot OS ≤ osFillCount tot OS s + 1 :=
    numbProjBins_le_osFillCount_succ hOS hs
  have hm1 : 1 ≤ osFillCount tot OS s := one_le_osFillCount hOS (by omega)
  have hrow : newIndRow tot OS s =
      (List.range (osFillCount tot OS s)).map (fun p => s + p * OS) ++
        List.replicate (numbProjBins tot OS - osFillCount tot OS s) 0 := by
    rw [newIndRow, osRowAux_spec hOS, min_eq_right hmle]
  rcases Nat.eq_or_lt_of_le hmle with heq | hlt
  · -- every slot of the row is filled; the last entry is positive, no trimming
    rw [trimmedIndVec, hrow, ← heq]
    simp only [Nat.sub_self, List.replicate_zero, List.append_nil]
    have hw : OS ≤ (osFillCount tot OS s - 1) * OS := by
      have h2 := Nat.mul_le_mul_right OS (show 1 ≤ osFillCount tot OS s - 1 by omega)
      simpa using h2
    have hlast : (((List.range (osFillCount tot OS s)).map (fun p => s + p * OS)).getD
        (osFillCount tot OS s - 1) 0) = s + (osFillCount tot OS s - 1) * OS := by
      rw [List.getD_eq_getElem?_getD, List.getElem?_map, List.getElem?_range (by omega)]
      rfl
    have hne : ¬ ((((List.range (osFillCount tot OS s)).map (fun p => s + p * OS)).getD
        (osFillCount tot OS s - 1) 0) = 0) := by
      rw [hlast]
      intro hcon
      have hzero : s + (osFillCount tot OS s - 1) * OS = 0 := hcon
      nlinarith [hw, hOS]
    rw [if_neg hne]
  · -- exactly one padding slot at the end; it is trimmed away
    have hBm : numbProjBins tot OS = osFillCount tot OS s + 1 := by omega
    rw [trimmedIndVec, hrow, hBm]
    have h1 : osFillCount tot OS s + 1 - osFillCount tot OS s = 1 := by omega
    have h2 : osFillCount tot OS s + 1 - 1 = osFillCount tot OS s := by omega
    rw [h1, h2]
    have hlast : ((List.range (osFillCount tot OS s)).map (fun p => s + p * OS) ++
        List.replicate 1 0).getD (osFillCount tot OS s) 0 = 0 := by
      rw [List.getD_eq_getElem?_getD, List.getElem?_append_right (by simp)]
      simp
    rw [if_pos hlast]
    rw [show List.replicate 1 (0 : ℕ) = [0] from rfl, List.dropLast_concat]

theorem count_range_eq (n a : ℕ) : (List.range n).count a = if a < n then 1 else 0 := by
  by_cases h : a < n
  · simp [h, List.count_eq_one_of_mem (List.nodup_range n) (List.mem_range.2 h)]
  · rw [if_neg h, List.count_eq_zero]
    simpa using h

theorem count_trimmedIndVec {tot OS s : ℕ} (hOS : 0 < OS) (hs : s < OS) (htot : OS < tot)
    (i : ℕ) :
    (trimmedIndVec tot OS s).count i = if i % OS = s ∧ i < tot then 1 else 0 := by
  rw [trimmedIndVec_eq hOS hs htot]
  by_cases hmod : i % OS = s
  · have hi : i = s + (i / OS) * OS := by
      conv_lhs => rw [← Nat.mod_add_div i OS]
      rw [hmod, Nat.mul_comm]
    have hinj : Function.Injective (fun p => s + p * OS) := by
      intro a b hab
      have h2 : a * OS = b * OS := Nat.add_left_cancel hab
      exact Nat.eq_of_mul_eq_mul_right hOS h2
    have hcnt : (List.count (s + i / OS * OS)
        ((List.range (osFillCount tot OS s)).map (fun p => s + p * OS)))
        = List.count (i / OS) (List.range (osFillCount tot OS s)) :=
      List.count_map_of_injective (List.range (osFillCount tot OS s))
        (fun p => s + p * OS) hinj (i / OS)
    have hstep : (List.count i ((List.range (osFillCount tot OS s)).map (fun p => s + p * OS)))
        = List.count (i / OS) (List.range (osFillCount tot OS s)) := by
      conv_lhs => rw [hi]
      exact hcnt
    rw [hstep, count_range_eq]
    simp only [← fill_lt_iff hOS, ← hi, hmod]
    simp
  · rw [if_neg (by tauto), List.count_eq_zero]
    intro hmem
    rcases List.mem_map.1 hmem with ⟨p, _hp, hfp⟩
    apply hmod
    rw [← hfp, Nat.add_mul_mod_self_right]
    exact Nat.mod_eq_of_lt hs

theorem sum_indicator_range (n a : ℕ) :
    ((List.range n).map (fun s => if a = s then (1 : ℕ) else 0)).sum =
      if a < n then 1 else 0 := by
  induction n with
  | zero => simp
  | succ n ih =>
    rw [List.range_succ, List.map_append, List.sum_append, ih]
    simp only [List.map_cons, List.map_nil, List.sum_cons, List.sum_nil, Nat.add_zero]
    by_cases h2 : a = n
    · subst h2
      simp
    · by_cases h1 : a < n
      · simp [h1, h2, Nat.lt_succ_of_lt h1]
      · have h3 : ¬ a < n + 1 := by omega
        simp [h1, h2, h3]

/-- Claim C1 counterexample: with a single projection angle and `OS_number = 1`
(an `OS_number ≥ 1` with a non-empty angle vector), the only subset row is
`[0]`, the trimming heuristic reads its last slot as padding and drops it, and
the resulting union misses index `0` entirely instead of covering `{0}`. -/
theorem os_partition_cover_counterexample :
    osIndexUnion 1 1 = [] ∧ (0 : ℕ) < 1 ∧ (osIndexUnion 1 1).count 0 = 0 := by
  refine ⟨by decide, by decide, by decide⟩

/-- Claim C1 (amended): for every `OS_number ≥ 1` and every angle count
strictly larger than `OS_number`, the subset index map built by
`_setOS_indices`, after trimming the trailing padding slot, is a disjoint
family of lists whose union is `{0, …, angle_count − 1}` with every index
occurring exactly once (each index is counted exactly once by the
concatenation of all trimmed rows).  The original claim fails exactly when
`angle_count ≤ OS_number`: subset `0` then consists of the single slot
holding index `0`, which the trimming heuristic mistakes for padding. -/
theorem os_partition_exact_cover (tot OS : ℕ) (hOS : 1 ≤ OS) (htot : OS < tot) (i : ℕ) :
    (osIndexUnion tot OS).count i = if i < tot then 1 else 0 := by
  rw [osIndexUnion, List.count_flatten, List.map_map]
  have hcongr : ((List.range OS).map (List.count i ∘ trimmedIndVec tot OS)) =
      (List.range OS).map (fun s => if i % OS = s ∧ i < tot then 1 else 0) := by
    apply List.map_congr_left
    intro s hsmem
    exact count_trimmedIndVec hOS (List.mem_range.1 hsmem) htot i
  rw [hcongr]
  by_cases hi : i < tot
  · simp only [hi, and_true]
    rw [sum_indicator_range]
    simp [Nat.mod_lt i hOS]
  · rw [if_neg hi]
    apply List.sum_eq_zero
    intro x hx
    rcases List.mem_map.1 hx with ⟨s, _hs, hxs⟩
    simp [hi] at hxs
    omega

/-- Witness for `os_partition_exact_cover` at `angle_count = 7`,
`OS_number = 3`, index `4`. -/
theorem os_partition_exact_cover_witness :
    1 ≤ 3 ∧ 3 < 7 ∧ (osIndexUnion 7 3).count 4 = (if 4 < 7 then 1 else 0) :=
  ⟨by decide, by decide, os_partition_exact_cover 7 3 (by decide) (by decide) 4⟩

/-! ## Claim C7: the ring soft-threshold -/

/-- Claim C7 counterexample: at `r_raw = 0.1`, `lambda = 0.2` the update
returns `0`, whose sign is `0` while the sign of `r_raw` is `1`, so the sign
of `r_new` does not equal the sign of `r_raw` at every input (the magnitude
equation still holds there). -/
theorem softThresh_sign_counterexample :
    softThresh (2 / 10 : ℚ) (1 / 10) = 0 ∧
      npSign (softThresh (2 / 10 : ℚ) (1 / 10)) = 0 ∧ npSign (1 / 10 : ℚ) = 1 ∧
      (0 : ℚ) ≠ 1 := by
  have hsign : npSign (1 / 10 : ℚ) = 1 := by
    rw [npSign, if_pos (by norm_num)]
  have habs : |(1 / 10 : ℚ)| = 1 / 10 := abs_of_pos (by norm_num)
  have hval : softThresh (2 / 10 : ℚ) (1 / 10) = 0 := by
    rw [softThresh, hsign, mul_one, habs, max_eq_right (by norm_num)]
  have hzero : npSign (0 : ℚ) = 0 := by
    rw [npSign, if_neg (by norm_num), if_neg (by norm_num)]
  refine ⟨hval, ?_, hsign, by norm_num⟩
  rw [hval, hzero]

/-- Claim C7 (amended): entrywise, for every input `x` and every
`lambda ≥ 0`, the ring update satisfies `|r_new| = max (|r_raw| - lambda) 0`,
and the sign of `r_new` equals the sign of `r_raw` whenever `r_new ≠ 0` (when
the magnitude is thresholded to zero the sign collapses to `0`); the
representative instance `r_raw = 0.5`, `lambda = 0.2`, `r_new = 0.3` is part
of the witness. -/
theorem softThresh_spec {α : Type} [LinearOrderedField α] (lam x : α) (hlam : 0 ≤ lam) :
    (|softThresh lam x| = max (|x| - lam) 0 ∧
      (softThresh lam x ≠ 0 → npSign (softThresh lam x) = npSign x)) ∧
      softThresh (2 / 10 : ℚ) (5 / 10) = 3 / 10 := by
  refine ⟨?_, ?_⟩
  case refine_2 =>
    have hsgn : npSign (5 / 10 : ℚ) = 1 := by
      rw [npSign, if_pos (by norm_num)]
    rw [softThresh, hsgn, mul_one, abs_of_pos (show (0 : ℚ) < 5 / 10 by norm_num),
      max_eq_left (by norm_num)]
    norm_num
  have hmax : (0 : α) ≤ max (|x| - lam) 0 := le_max_right _ _
  rcases lt_trichotomy x 0 with hx | hx | hx
  · have hs : npSign x = -1 := by
      rw [npSign, if_neg (by linarith), if_pos hx]
    constructor
    · rw [softThresh, hs, mul_neg_one, abs_neg, abs_of_nonneg hmax]
    · intro hne
      have hm : 0 < max (|x| - lam) 0 := by
        rcases lt_or_eq_of_le hmax with h | h
        · exact h
        · exfalso
          apply hne
          rw [softThresh, ← h, zero_mul]
      have hneg : softThresh lam x < 0 := by
        rw [softThresh, hs, mul_neg_one]
        linarith
      rw [npSign, if_neg (by linarith), if_pos hneg, hs]
  · subst hx
    have h0 : npSign (0 : α) = 0 := by
      rw [npSign, if_neg (by linarith), if_neg (by linarith)]
    constructor
    · rw [softThresh, h0, mul_zero, abs_zero, zero_sub, max_eq_right (by linarith)]
    · intro hne
      exfalso
      apply hne
      rw [softThresh, h0, mul_zero]
  · have hs : npSign x = 1 := by rw [npSign, if_pos hx]
    constructor
    · rw [softThresh, hs, mul_one, abs_of_nonneg hmax]
    · intro hne
      have hm : 0 < max (|x| - lam) 0 := by
        rcases lt_or_eq_of_le hmax with h | h
        · exact h
        · exfalso
          apply hne
          rw [softThresh, ← h, zero_mul]
      have hpos : 0 < softThresh lam x := by
        rw [softThresh, hs, mul_one]
        exact hm
      rw [npSign, if_pos hpos, hs]

/-- Witness for `softThresh_spec` at `x = 0.5`, `lambda = 0.2`, together with
the representative value `r_new = 0.3` of the claim. -/
theorem softThresh_spec_witness :
    (0 : ℚ) ≤ 1 ∧
      ((|softThresh (1 : ℚ) 3| = max (|(3 : ℚ)| - 1) 0 ∧
        (softThresh (1 : ℚ) 3 ≠ 0 → npSign (softThresh (1 : ℚ) 3) = npSign (3 : ℚ))) ∧
      softThresh (2 / 10 : ℚ) (5 / 10) = 3 / 10) :=
  ⟨by decide, softThresh_spec (1 : ℚ) 3 (by decide)⟩

/-! ## Claim C5: fail-fast configuration resolution -/

/-- Claim C5: `dicts_check` — the first statement of every solver method,
running before any solver state exists and before any iteration — raises
whenever the normalised projection data entry is absent, and whenever the
fidelity is PWLS or SWLS while the raw projection data entry is absent. -/
theorem dicts_check_data_fails_fast {α Arr : Type} [LinearOrderedField α]
    (fid : Fidelity) (d : DataIn α Arr)
    (h : d.projection_norm_data = none ∨
      ((fid = Fidelity.PWLS ∨ fid = Fidelity.SWLS) ∧ d.projection_raw_data = none)) :
    ∃ msg, dicts_check_data fid d = Except.error msg := by
  rcases h with h1 | ⟨hfid, hraw⟩
  · refine ⟨ "No input projection_norm_data has been provided", ?_⟩
    simp [dicts_check_data, h1]
  · cases hnorm : d.projection_norm_data with
    | none =>
      refine ⟨ "No input projection_norm_data has been provided", ?_⟩
      simp [dicts_check_data, hnorm]
    | some norm =>
      refine ⟨ "No input projection_raw_data provided for PWLS or SWLS data fidelity", ?_⟩
      rcases hfid with hf | hf <;>
        simp [dicts_check_data, hnorm, hraw, hf]

/-- Witness for `dicts_check_data_fails_fast`: a data dictionary with no
normalised projection data is rejected. -/
theorem dicts_check_data_fails_fast_witness :
    (({ projection_norm_data := none, projection_raw_data := none, OS_number := none,
        beta_SWLS := none, huber_threshold := none, studentst_threshold := none,
        ringGH_lambda := none, ringGH_accelerate := none } : DataIn ℚ Unit).projection_norm_data
        = none) ∧
      ∃ msg, dicts_check_data Fidelity.LS
        ({ projection_norm_data := none, projection_raw_data := none, OS_number := none,
           beta_SWLS := none, huber_threshold := none, studentst_threshold := none,
           ringGH_lambda := none, ringGH_accelerate := none } : DataIn ℚ Unit) =
          Except.error msg :=
  ⟨rfl, dicts_check_data_fails_fast Fidelity.LS _ (Or.inl rfl)⟩

/-! ## Claim C3: Huber and Student-t are never both applied, and never rejected -/

/-- Claim C3 counterexample: a FISTA data dictionary supplying both a Huber
threshold and a Student-t threshold passes configuration resolution with no
error of any kind (no UnsupportedCombinationError exists in the code), and
the reweighting then silently applies the Huber branch: at residual `2` the
multiplier is the Huber `1/2`, not the Student-t `2/5`. -/
theorem both_thresholds_accepted_counterexample :
    (dicts_check_data Fidelity.LS
      ({ projection_norm_data := some (), projection_raw_data := none, OS_number := none,
         beta_SWLS := none, huber_threshold := some (some 1),
         studentst_threshold := some (some 1), ringGH_lambda := none,
         ringGH_accelerate := none } : DataIn ℚ Unit)).isOk = true ∧
      multWeight (some (1 : ℚ)) (some 1) 2 = 1 / 2 ∧
      studentWeightSpec (1 : ℚ) 2 = 2 / 5 ∧ (1 / 2 : ℚ) ≠ 2 / 5 := by
  have habs2 : |(2 : ℚ)| = 2 := abs_of_pos (by norm_num)
  refine ⟨rfl, ?_, by rw [studentWeightSpec]; norm_num, by norm_num⟩
  simp only [multWeight]
  rw [habs2, if_pos (by norm_num)]

/-- Claim C3 (amended): supplying both thresholds is not rejected — for the
LS fidelity resolution succeeds exactly when normalised data is present,
whatever the thresholds — and the if/elif chain applies at most one
reweighting: with a Huber threshold set the Student-t setting is ignored and
the multiplier equals the specification Huber weight, while the Student-t
weight of the specification is applied when only a Student-t threshold is
set. -/
theorem reweighting_mutually_exclusive {α Arr : Type} [LinearOrderedField α] :
    (∀ d : DataIn α Arr,
        (dicts_check_data Fidelity.LS d).isOk = d.projection_norm_data.isSome) ∧
    (∀ tau1 tau2 r : α,
        multWeight (some tau1) (some tau2) r = multWeight (some tau1) none r ∧
        multWeight (some tau1) (some tau2) r = huberWeightSpec tau1 r) ∧
    (∀ tau2 r : α, multWeight none (some tau2) r = studentWeightSpec tau2 r) := by
  refine ⟨?_, fun tau1 tau2 r => ⟨rfl, rfl⟩, fun tau2 r => rfl⟩
  intro d
  cases hnorm : d.projection_norm_data with
  | none =>
    simp [dicts_check_data, hnorm]
    rfl
  | some norm =>
    simp [dicts_check_data, hnorm]
    rfl

/-! ## Claim C9: the mask_diameter KeyError -/

theorem lookup_setIfAbsent_ne (d : List (String × AlgValue)) (k k2 : String) (v : AlgValue)
    (h : (k2 == k) = false) : (setIfAbsent d k v).lookup k2 = d.lookup k2 := by
  rw [setIfAbsent]
  cases d.lookup k <;> simp [List.lookup, h]

theorem lookup_setIfGetNone_ne (d : List (String × AlgValue)) (k k2 : String) (v : AlgValue)
    (h : (k2 == k) = false) : (setIfGetNone d k v).lookup k2 = d.lookup k2 := by
  rw [setIfGetNone]
  cases hv : d.lookup k with
  | none => simp [List.lookup, h]
  | some w => cases w <;> simp [List.lookup, h]

theorem lookup_setIfAbsent_self_isSome (d : List (String × AlgValue)) (k : String)
    (v : AlgValue) : ((setIfAbsent d k v).lookup k).isSome := by
  rw [setIfAbsent]
  cases h : d.lookup k with
  | some w => simp [h]
  | none => simp [List.lookup]

theorem lookup_setIfAbsent_none (d : List (String × AlgValue)) (k : String) (v : AlgValue)
    (h : d.lookup k = none) : (setIfAbsent d k v).lookup k = some v := by
  rw [setIfAbsent, h]
  simp [List.lookup]

/-- Claim C9: algorithm-dictionary resolution never touches the key
`mask_diameter` (it fills the circular-mask default under
`recon_mask_radius`), so a FISTA call whose caller did not supply
`mask_diameter` reaches the mask read of the first subset update and raises a
`KeyError`; when the caller does supply it, that read succeeds. -/
theorem fista_mask_diameter_keyerror (OSnum : ℕ) (Lauto : AlgValue)
    (alg : List (String × AlgValue)) (maskFn : (ℕ → ℚ) → (ℕ → ℚ)) (X1 : ℕ → ℚ) :
    ((dicts_check_algorithm_FISTA OSnum Lauto alg).lookup "mask_diameter" =
        alg.lookup "mask_diameter") ∧
    (alg.lookup "recon_mask_radius" = none →
        (dicts_check_algorithm_FISTA OSnum Lauto alg).lookup "recon_mask_radius" =
          some (AlgValue.pyFloat 1)) ∧
    (alg.lookup "mask_diameter" = none →
        fistaDictUpdateTail (dicts_check_algorithm_FISTA OSnum Lauto alg) maskFn X1 =
          Except.error ( "KeyError: " ++ "mask_diameter")) ∧
    (∀ v, alg.lookup "mask_diameter" = some v →
        (fistaDictUpdateTail (dicts_check_algorithm_FISTA OSnum Lauto alg) maskFn X1).isOk) := by
  have hmask : (dicts_check_algorithm_FISTA OSnum Lauto alg).lookup "mask_diameter" =
      alg.lookup "mask_diameter" := by
    rw [dicts_check_algorithm_FISTA]
    rw [lookup_setIfAbsent_ne _ _ _ _ (by decide), lookup_setIfAbsent_ne _ _ _ _ (by decide),
      lookup_setIfAbsent_ne _ _ _ _ (by decide), lookup_setIfAbsent_ne _ _ _ _ (by decide),
      lookup_setIfAbsent_ne _ _ _ _ (by decide), lookup_setIfGetNone_ne _ _ _ _ (by decide),
      lookup_setIfGetNone_ne _ _ _ _ (by decide)]
  have hnn : ((dicts_check_algorithm_FISTA OSnum Lauto alg).lookup "nonnegativity").isSome := by
    rw [dicts_check_algorithm_FISTA]
    rw [lookup_setIfAbsent_ne _ _ _ _ (by decide), lookup_setIfAbsent_ne _ _ _ _ (by decide),
      lookup_setIfAbsent_ne _ _ _ _ (by decide)]
    exact lookup_setIfAbsent_self_isSome _ _ _
  refine ⟨hmask, ?_, ?_, ?_⟩
  · intro h
    rw [dicts_check_algorithm_FISTA]
    rw [lookup_setIfAbsent_ne _ _ _ _ (by decide), lookup_setIfAbsent_ne _ _ _ _ (by decide)]
    apply lookup_setIfAbsent_none
    rw [lookup_setIfAbsent_ne _ _ _ _ (by decide), lookup_setIfAbsent_ne _ _ _ _ (by decide),
      lookup_setIfGetNone_ne _ _ _ _ (by decide), lookup_setIfGetNone_ne _ _ _ _ (by decide)]
    exact h
  · intro h
    obtain ⟨nn, hnnv⟩ := Option.isSome_iff_exists.1 hnn
    rw [fistaDictUpdateTail]
    rw [show pyGetItem (dicts_check_algorithm_FISTA OSnum Lauto alg) "nonnegativity" =
        Except.ok nn from by rw [pyGetItem, hnnv]]
    rw [show pyGetItem (dicts_check_algorithm_FISTA OSnum Lauto alg) "mask_diameter" =
        Except.error ( "KeyError: " ++ "mask_diameter") from by
      rw [pyGetItem, hmask, h]]
    rfl
  · intro v hv
    obtain ⟨nn, hnnv⟩ := Option.isSome_iff_exists.1 hnn
    rw [fistaDictUpdateTail]
    rw [show pyGetItem (dicts_check_algorithm_FISTA OSnum Lauto alg) "nonnegativity" =
        Except.ok nn from by rw [pyGetItem, hnnv]]
    rw [show pyGetItem (dicts_check_algorithm_FISTA OSnum Lauto alg) "mask_diameter" =
        Except.ok v from by rw [pyGetItem, hmask, hv]]
    rfl

/-- Witness for `fista_mask_diameter_keyerror`: the empty algorithm
dictionary (every key defaulted) still produces the `KeyError` at the mask
read of the first subset update. -/
theorem fista_mask_diameter_keyerror_witness :
    (([] : List (String × AlgValue)).lookup "mask_diameter" = none) ∧
      fistaDictUpdateTail (dicts_check_algorithm_FISTA 1 (AlgValue.pyFloat 1) [])
        (fun X => X) (fun _ => 0) = Except.error ( "KeyError: " ++ "mask_diameter") :=
  ⟨rfl, (fista_mask_diameter_keyerror 1 (AlgValue.pyFloat 1) [] (fun X => X)
    (fun _ => 0)).2.2.1 rfl⟩

/-! ## Claim C2: the 3D Group-Huber pre-calculation -/

/-- Claim C2 evaluation at the failing input: in the 3D geometry with two
subsets whose summed residual contributions are the constants `1` and `2`,
the pre-subset-loop ring update computes `r = r_x - L_const_inv * vec` with
`vec` equal to the LAST contribution only (the loop body
`vec = res.sum(axis = 1)` overwrites the accumulator), giving `-2`, whereas
the accumulation over every subset that the claim (and the comment above the
loop, and the 2D branch) describe gives `-3`. -/
theorem ghPrecalc3D_overwrites :
    ghPrecalc ghExample (fistaInit 0) 0 = -2 ∧
      ghPrecalcSpec3D ghExample (fistaInit 0) 0 = -3 ∧ ((-2 : ℚ)) ≠ -3 := by
  refine ⟨?_, ?_, by norm_num⟩
  · show (0 : ℚ) - 1 * ((2 : ℚ) + 0 * 0) = -2
    norm_num
  · show (0 : ℚ) - 1 * ((0 + ((1 : ℚ) + 0 * 0)) + ((2 : ℚ) + 0 * 0)) = -3
    norm_num

/-! ## Claim C4: nonnegativity True versus the string comparison -/

/-- Claim C4 evaluation at the failing input: with `nonnegativity` holding
the boolean `True` — the type `dicts_check` documents, defaults, and reads
for its own `nonneg_regul` side effect — the comparison
`_algorithm_['nonnegativity'] == 'ENABLE'` is false, the clamp `X[X<0]=0` is
skipped, and one iteration of the concrete model already returns the negative
entry `-1`; the identical model holding the string `ENABLE` clamps the same
entry to `0`. -/
theorem nonnegativity_true_skips_clamp :
    (fistaStates nonnegTrueExample 0 1).X 0 = -1 ∧ ((-1 : ℚ) < 0) ∧
      (fistaStates nonnegEnableExample 0 1).X 0 = 0 := by
  have h1 : (fistaStates nonnegTrueExample 0 1).X 0 = -1 := by
    show (0 : ℚ) - 1 * (1 * 1) = -1
    norm_num
  refine ⟨h1, by norm_num, ?_⟩
  have hfun : (fistaStates nonnegEnableExample 0 1).X 0 =
      (if (fistaStates nonnegTrueExample 0 1).X 0 < 0 then 0
       else (fistaStates nonnegTrueExample 0 1).X 0) := rfl
  rw [hfun]
  simp only [h1]
  rw [if_pos (show (-1 : ℚ) < 0 by norm_num)]

/-! ## Claim C8: unset ringGH_lambda keeps the ring model inert -/

theorem subsetStep_r {α : Type} [LinearOrderedField α] (M : FISTAModel α) (i sub : ℕ)
    (s : FISTAState α) :
    (subsetStep M i sub s).r =
      (if M.OSnum > 1 then s.r
       else if ringActive M i then
         s.r_x - M.Linv • M.collapseRes (subsetRes M i s.X_t s.r_x sub)
       else s.r) := rfl

theorem subsetStep_r_x {α : Type} [LinearOrderedField α] (M : FISTAModel α) (i sub : ℕ)
    (s : FISTAState α) : (subsetStep M i sub s).r_x = s.r_x := rfl

/-- Claim C8: with `ringGH_lambda` resolved to `None` every Group-Huber guard
in FISTA is false: no ring correction term is ever added to any residual
(`subsetRes` degenerates to the bare fidelity residual), and the ring vector
`r` together with its extrapolation `r_x` stays identically zero at every
iteration. -/
theorem ring_stays_zero_when_lambda_none {α : Type} [LinearOrderedField α]
    (M : FISTAModel α) (hlam : M.lam = none) (X0 : ℕ → α) :
    (∀ (iter_no : ℕ) (Xt rx : ℕ → α) (sub : ℕ),
        subsetRes M iter_no Xt rx sub = M.fidRes Xt sub) ∧
    (∀ n, (fistaStates M X0 n).r = 0 ∧ (fistaStates M X0 n).r_x = 0) := by
  have hact : ∀ i, ¬ ringActive M i := by
    intro i hi
    have h1 := hi.1
    rw [hlam] at h1
    simp at h1
  refine ⟨?_, ?_⟩
  · intro i Xt rx sub
    simp only [subsetRes]
    rw [if_neg (hact i)]
  · intro n
    induction n with
    | zero => exact ⟨rfl, rfl⟩
    | succ n ih =>
      obtain ⟨hr, hrx⟩ := ih
      have hfold : ∀ (l : List ℕ) (s : FISTAState α),
          ((l.foldl (fun st sub => subsetStep M n sub st) s).r = s.r ∧
           (l.foldl (fun st sub => subsetStep M n sub st) s).r_x = s.r_x) := by
        intro l
        induction l with
        | nil => intro s; exact ⟨rfl, rfl⟩
        | cons a l ihl =>
          intro s
          rw [List.foldl_cons]
          obtain ⟨h1, h2⟩ := ihl (subsetStep M n a s)
          constructor
          · rw [h1, subsetStep_r]
            by_cases hOS : M.OSnum > 1
            · rw [if_pos hOS]
            · rw [if_neg hOS, if_neg (hact n)]
          · rw [h2, subsetStep_r_x]
      have hstep : iterStep M n (fistaStates M X0 n) =
          (List.range M.OSnum).foldl (fun st sub => subsetStep M n sub st)
            (fistaStates M X0 n) := by
        simp only [iterStep]
        rw [if_neg (fun hcon : M.OSnum ≠ 1 ∧ ringActive M n => hact n hcon.2),
          if_neg (hact n)]
      have hfs : fistaStates M X0 (n + 1) = iterStep M n (fistaStates M X0 n) := rfl
      rw [hfs, hstep]
      obtain ⟨h1, h2⟩ := hfold (List.range M.OSnum) (fistaStates M X0 n)
      rw [h1, h2, hr, hrx]
      exact ⟨rfl, rfl⟩

/-- Witness for `ring_stays_zero_when_lambda_none` on the concrete model with
`ringGH_lambda = None`, after three iterations. -/
theorem ring_stays_zero_witness :
    nonnegTrueExample.lam = none ∧
      ((fistaStates nonnegTrueExample 0 3).r = 0 ∧
        (fistaStates nonnegTrueExample 0 3).r_x = 0) :=
  ⟨rfl, (ring_stays_zero_when_lambda_none nonnegTrueExample rfl 0).2 3⟩

/-! ## Claim C6: the momentum recurrence -/

theorem foldl_subsetStep_t {α : Type} [LinearOrderedField α] (M : FISTAModel α) (i : ℕ) :
    ∀ (l : List ℕ) (s : FISTAState α),
      (l.foldl (fun st sub => subsetStep M i sub st) s).t =
        (fun t => (1 + M.sqrtFn (1 + 4 * t ^ 2)) * (1 / 2))^[l.length] s.t := by
  intro l
  induction l with
  | nil => intro s; rfl
  | cons a l ih =>
    intro s
    rw [List.foldl_cons, ih (subsetStep M i a s), List.length_cons]
    exact (Function.iterate_succ_apply
      (fun t => (1 + M.sqrtFn (1 + 4 * t ^ 2)) * (1 / 2)) l.length s.t).symm

theorem FISTAState_update_rrx_t {α : Type} (st : FISTAState α) (r2 rx2 : ℕ → α) :
    ({ st with r := r2, r_x := rx2 }).t = st.t := rfl

theorem iterStep_t {α : Type} [LinearOrderedField α] (M : FISTAModel α) (i : ℕ)
    (s : FISTAState α) :
    (iterStep M i s).t =
      (fun t => (1 + M.sqrtFn (1 + 4 * t ^ 2)) * (1 / 2))^[M.OSnum] s.t := by
  have hfold : ∀ s0 : FISTAState α,
      ((List.range M.OSnum).foldl (fun st sub => subsetStep M i sub st) s0).t =
        (fun t => (1 + M.sqrtFn (1 + 4 * t ^ 2)) * (1 / 2))^[M.OSnum] s0.t := by
    intro s0
    rw [foldl_subsetStep_t M i (List.range M.OSnum) s0, List.length_range]
  simp only [iterStep]
  have hs1 : (if M.OSnum ≠ 1 ∧ ringActive M i then { s with r := ghPrecalc M s } else s).t
      = s.t := by
    by_cases h2 : M.OSnum ≠ 1 ∧ ringActive M i
    · rw [if_pos h2]
    · rw [if_neg h2]
  by_cases h : ringActive M i
  · rw [if_pos h, FISTAState_update_rrx_t, hfold _, hs1]
  · rw [if_neg h, hfold _, hs1]

theorem tIter_ge_one (n : ℕ) (t : ℝ) (ht : 1 ≤ t) :
    1 ≤ (fun t => (1 + Real.sqrt (1 + 4 * t ^ 2)) * (1 / 2))^[n] t ∧
      t ≤ (fun t => (1 + Real.sqrt (1 + 4 * t ^ 2)) * (1 / 2))^[n] t := by
  induction n generalizing t with
  | zero => exact ⟨ht, le_refl t⟩
  | succ n ih =>
    have hstep : t ≤ (1 + Real.sqrt (1 + 4 * t ^ 2)) * (1 / 2) ∧
        1 ≤ (1 + Real.sqrt (1 + 4 * t ^ 2)) * (1 / 2) := by
      have h0 : (0 : ℝ) ≤ 2 * t := by linarith
      have h1 : Real.sqrt (4 * t ^ 2) = 2 * t := by
        rw [show (4 : ℝ) * t ^ 2 = (2 * t) ^ 2 by ring]
        exact Real.sqrt_sq h0
      have h2 : Real.sqrt (4 * t ^ 2) ≤ Real.sqrt (1 + 4 * t ^ 2) :=
        Real.sqrt_le_sqrt (by linarith)
      rw [h1] at h2
      constructor <;> linarith
    rw [Function.iterate_succ_apply]
    obtain ⟨h3, h4⟩ := ih ((1 + Real.sqrt (1 + 4 * t ^ 2)) * (1 / 2)) hstep.2
    exact ⟨h3, le_trans hstep.1 h4⟩

/-- Claim C6: with `np.sqrt` read as the real square root, the momentum
scalar starts at `1.0`, each outer iteration changes it exactly by
`OS_number` applications of the recurrence `t ← (1+√(1+4t²))/2` — one per
subset step, and nothing else ever writes `t` — and it is at least `1` and
monotonically non-decreasing across the whole run. -/
theorem momentum_monotone (M : FISTAModel ℝ) (hsq : M.sqrtFn = Real.sqrt) (X0 : ℕ → ℝ) :
    (fistaStates M X0 0).t = 1 ∧
    (∀ n, (fistaStates M X0 (n + 1)).t =
        (fun t => (1 + Real.sqrt (1 + 4 * t ^ 2)) * (1 / 2))^[M.OSnum]
          ((fistaStates M X0 n).t)) ∧
    (∀ n, 1 ≤ (fistaStates M X0 n).t) ∧
    (∀ n, (fistaStates M X0 n).t ≤ (fistaStates M X0 (n + 1)).t) := by
  have hstep : ∀ n, (fistaStates M X0 (n + 1)).t =
      (fun t => (1 + Real.sqrt (1 + 4 * t ^ 2)) * (1 / 2))^[M.OSnum]
        ((fistaStates M X0 n).t) := by
    intro n
    have h := iterStep_t M n (fistaStates M X0 n)
    rw [hsq] at h
    exact h
  have hone : ∀ n, 1 ≤ (fistaStates M X0 n).t := by
    intro n
    induction n with
    | zero => exact le_refl 1
    | succ n ih =>
      rw [hstep n]
      exact (tIter_ge_one M.OSnum _ ih).1
  refine ⟨rfl, hstep, hone, ?_⟩
  intro n
  rw [hstep n]
  exact (tIter_ge_one M.OSnum _ (hone n)).2

/-- Witness for `momentum_monotone` on a concrete model whose `sqrtFn` is the
real square root. -/
theorem momentum_monotone_witness :
    ({ is2D := true, OSnum := 1, lam := none, accel := 0, huber := none, studentst := none,
       Linv := 1, nonneg := AlgValue.pyBool false, mask_diameter := none, regulMethod := none,
       sqrtFn := Real.sqrt, fidRes := fun _ _ => 0, backproj := fun w _ => w,
       broadcastRing := fun rv => rv, collapseRes := fun res => res, maskFn := fun X => X,
       prox := fun X => X } : FISTAModel ℝ).sqrtFn = Real.sqrt ∧
      1 ≤ (fistaStates
        ({ is2D := true, OSnum := 1, lam := none, accel := 0, huber := none, studentst := none,
           Linv := 1, nonneg := AlgValue.pyBool false, mask_diameter := none,
           regulMethod := none, sqrtFn := Real.sqrt, fidRes := fun _ _ => 0,
           backproj := fun w _ => w, broadcastRing := fun rv => rv,
           collapseRes := fun res => res, maskFn := fun X => X,
           prox := fun X => X } : FISTAModel ℝ) 0 2).t :=
  ⟨rfl, (momentum_monotone _ rfl 0).2.2.1 2⟩

/-! ## Claim C10: ADMM with no regularisation method -/

theorem admmStep_z {α : Type} [LinearOrderedField α] (M : ADMMModel α) (s : ADMMState α) :
    (admmStep M s).z =
      (match M.regulMethod with
       | some _ => M.prox (admmXhat M s + s.u)
       | none => s.z) := rfl

theorem admmStep_u {α : Type} [LinearOrderedField α] (M : ADMMModel α) (s : ADMMState α) :
    (admmStep M s).u = s.u + (admmXhat M s - (admmStep M s).z) := rfl

/-- Claim C10: in an ADMM run with no regularisation method configured the
auxiliary variable `z` keeps its zero initialisation at every iteration
(the proximal reassignment of lines 552-554 never runs; `z = z.ravel()` is
shape-only), while the dual variable is still updated to `u + (x_hat − z)`
— that is, `u + (x_hat − 0)` — every iteration, so the right-hand side of
the quadratic sub-problem receives `ρ·(0 − u)` rather than a
proximally-updated `z`. -/
theorem admm_no_regul_z_stays_zero {α : Type} [LinearOrderedField α] (M : ADMMModel α)
    (hreg : M.regulMethod = none) (X0 : ℕ → α) :
    (∀ n, (admmStates M X0 n).z = 0) ∧
    (∀ n, (admmStates M X0 (n + 1)).u =
        (admmStates M X0 n).u + (admmXhat M (admmStates M X0 n) - 0)) ∧
    (∀ n, admmRHS M (admmStates M X0 n) =
        M.b_const + M.rho • (0 - (admmStates M X0 n).u)) := by
  have hz : ∀ n, (admmStates M X0 n).z = 0 := by
    intro n
    induction n with
    | zero => rfl
    | succ n ih =>
      have hfs : admmStates M X0 (n + 1) = admmStep M (admmStates M X0 n) := rfl
      rw [hfs, admmStep_z, hreg]
      exact ih
  have hzstep : ∀ n, (admmStep M (admmStates M X0 n)).z = 0 := by
    intro n
    rw [admmStep_z, hreg]
    exact hz n
  refine ⟨hz, ?_, ?_⟩
  · intro n
    have hfs : admmStates M X0 (n + 1) = admmStep M (admmStates M X0 n) := rfl
    rw [hfs, admmStep_u, hzstep n]
  · intro n
    rw [admmRHS, hz n]

/-- Witness for `admm_no_regul_z_stays_zero` on the concrete model with no
regularisation method, after two iterations. -/
theorem admm_no_regul_witness :
    admmExample.regulMethod = none ∧ (admmStates admmExample 0 2).z = 0 :=
  ⟨rfl, (admm_no_regul_z_stays_zero admmExample rfl 0).1 2⟩

end Tomobar
